import Mathlib

/-!
# BMP peer removal worker

A shallow embedding of `peerRemovalWorker` (inlet/bmp/remove.go) and the
properties of its batched, idempotent peer removal protocol.

Modelling conventions:

* The worker is modelled sequentially: one worker, no other task touching the
  registry or the RIB between two iterations.
* Everything decided outside the worker is an input: the outcome of the outer
  `select` (a list of `Select`), and, for each iteration of the per-key loop,
  the context handed to `flushPeerContext` and the outcome of the sleep
  `select` (a list of `Env`). A loop that exhausts its inputs is reported as
  not finished.
* `c.rib.flushPeerContext` belongs to the RIB store, whose code is not part of
  this development: the worker takes it as a parameter `flush`, and
  `flushPeerContext` below models it after its documented contract.
* Prometheus gauges and counters hold integers here (the route counts they are
  fed with are integers). The lock-hold histogram is fed with clock
  differences; only the fact that an observation is made is recorded.
* Each iteration records the operations it performs, in program order (`Op`).
-/

namespace Bmp

/-! ## Data model -/

/-- Exporter endpoint (`netip.AddrPort`); `addr` is the address as `Unmap` returns it. -/
structure AddrPort where
  addr : Nat
  port : Nat
deriving DecidableEq, Repr

/-- Key of the peer registry: the exporter and the identity of the BGP peer. -/
structure PeerKey where
  exporter : AddrPort
  peer : Nat
deriving DecidableEq, Repr

/-- Per-session state: the handle under which the peer's routes are stored. -/
structure PeerInfo where
  reference : Nat
deriving DecidableEq, Repr

/-- A stored route, tagged with the reference of the owning peer. -/
structure Route where
  peer : Nat
  pfx : Nat
deriving DecidableEq, Repr

/-- Modelled from the spec: the RIB store (its type is not in the sources), as the
collection of stored routes, each tagged with its owner's reference. -/
abbrev RIB := List Route

/-- Number of routes stored under `reference`. -/
def routeCount (reference : Nat) (rib : RIB) : Nat :=
  (rib.filter (fun r => r.peer = reference)).length

/-- Routes stored under `reference`, in store order. -/
def routesOf (reference : Nat) (rib : RIB) : List Route :=
  rib.filter (fun r => r.peer = reference)

/-- Label value of the per-exporter metrics. -/
abbrev Label := Nat

/-- The metrics the worker updates, per exporter label. -/
structure Metrics where
  routes : Label → Int
  peers : Label → Int
  peerRemovalDone : Label → Nat
  peerRemovalPartial : Label → Nat

/-- Recognised options of the removal protocol. -/
structure Configuration where
  RIBPeerRemovalMaxTime : Nat
  RIBPeerRemovalBatchRoutes : Nat
  RIBPeerRemovalSleepInterval : Nat
deriving DecidableEq, Repr

/-- The part of the component the worker reads and writes. -/
structure Component where
  peers : PeerKey → Option PeerInfo
  rib : RIB
  metrics : Metrics

/-- Modelled from the spec: the context of one batch. `expiresAfter = some k` means the
deadline (or cancellation) hits once `k` routes have been deleted in the batch;
`none` means it does not hit during the batch. -/
structure Context where
  expiresAfter : Option Nat
deriving DecidableEq, Repr

/-- Result of one `flushPeerContext` call, with the store it leaves. -/
structure FlushResult where
  rib : RIB
  removed : Nat
  done : Bool
deriving DecidableEq, Repr

/-- Signature of `flushPeerContext(ctx, reference, maxRoutes)` on a store. -/
abbrev Flush := Context → RIB → Nat → Nat → FlushResult

/-- Deletes the first `n` routes stored under `reference`; returns the store left and
the number of routes deleted. -/
def removeUpTo (reference : Nat) : RIB → Nat → RIB × Nat
  | [], _ => ([], 0)
  | r :: rest, n =>
    if r.peer = reference then
      match n with
      | 0 => (r :: rest, 0)
      | m + 1 => ((removeUpTo reference rest m).1, (removeUpTo reference rest m).2 + 1)
    else
      (r :: (removeUpTo reference rest n).1, (removeUpTo reference rest n).2)

/-- Modelled from the spec: `flushPeerContext` of the RIB store, which is not in the
sources. It removes at most `maxRoutes` routes of `reference`; if the context expires
mid-batch it returns early with the partial count and `done = false`; otherwise `done`
tells that no route remains for `reference` once the batch is deleted (also when none
existed at all), so that R routes take `ceil(R/maxRoutes)` calls as the batch bound of §8
counts them. Routes of other references are left alone. -/
def flushPeerContext : Flush := fun ctx rib reference maxRoutes =>
  let batch := min maxRoutes (routeCount reference rib)
  match ctx.expiresAfter with
  | some k =>
    if k < batch then
      { rib := (removeUpTo reference rib k).1, removed := (removeUpTo reference rib k).2,
        done := false }
    else
      { rib := (removeUpTo reference rib maxRoutes).1,
        removed := (removeUpTo reference rib maxRoutes).2,
        done := decide (routeCount reference (removeUpTo reference rib maxRoutes).1 = 0) }
  | none =>
    { rib := (removeUpTo reference rib maxRoutes).1,
      removed := (removeUpTo reference rib maxRoutes).2,
      done := decide (routeCount reference (removeUpTo reference rib maxRoutes).1 = 0) }

/-! ## The upgradeable lock -/

/-- Operations performed by one iteration of the per-key loop. -/
inductive Op where
  | clockNow
  | contextWithTimeout
  | lock
  | peersLookup
  | flushPeerContext
  | peersDelete
  | cancel
  | downgradeLock
  | lockedObserve
  | routesSub
  | peersDec
  | peerRemovalDoneInc
  | peerRemovalPartialInc
  | sleepSelect
  | rUnlock
deriving DecidableEq, Repr

/-- States of the lock. -/
inductive LockState where
  | Unlocked
  | Exclusive
  | Shared
deriving DecidableEq, Repr

/-- Modelled from the spec: the upgradeable lock `c.mu` (its type is not in the sources),
as seen by its holder: `Lock` takes it from Unlocked to Exclusive, `DowngradeLock` from
Exclusive to Shared, `RUnlock` from Shared to Unlocked; any other use of the three
operations is refused. Operations that are not lock operations leave the state. -/
def LockState.step : LockState → Op → Option LockState
  | .Unlocked, .lock => some .Exclusive
  | _, .lock => none
  | .Exclusive, .downgradeLock => some .Shared
  | _, .downgradeLock => none
  | .Shared, .rUnlock => some .Unlocked
  | _, .rUnlock => none
  | s, _ => some s

/-- Runs the lock over a sequence of operations, pairing each operation with the state
of the lock when it is performed; `none` if a lock operation is refused. -/
def lockRun : LockState → List Op → Option (List (Op × LockState) × LockState)
  | s, [] => some ([], s)
  | s, op :: ops =>
    match s.step op with
    | none => none
    | some s' =>
      match lockRun s' ops with
      | none => none
      | some (l, t) => some ((op, s) :: l, t)

/-- The three lock operations. -/
def Op.isLockOp : Op → Bool
  | .lock | .downgradeLock | .rUnlock => true
  | _ => false

/-- Registry lookup, batch deletion and registry delete. -/
def Op.isMutation : Op → Bool
  | .peersLookup | .flushPeerContext | .peersDelete => true
  | _ => false

/-- Updates of the routes, peers, partial and done metrics, and the sleep. -/
def Op.isStats : Op → Bool
  | .routesSub | .peersDec | .peerRemovalDoneInc | .peerRemovalPartialInc | .sleepSelect => true
  | _ => false

/-! ## The worker -/

/-- Label of a peer key: `pkey.exporter.Addr().Unmap().String()`. -/
def exporterStr (pkey : PeerKey) : Label := pkey.exporter.addr

/-- What the environment decides for one iteration: the context of the batch and
whether the sleep `select` takes the `Dying` branch. -/
structure Env where
  ctx : Context
  dying : Bool
deriving DecidableEq, Repr

/-- Outcome of the first closure of an iteration (the run under the exclusive lock). -/
structure RunResult where
  c : Component
  removed : Nat
  done : Bool
  duplicate : Bool
  ops : List Op

/-- First closure of an iteration: one run of removal, from `Lock` to `DowngradeLock`. -/
def removalRun (flush : Flush) (config : Configuration) (ctx : Context)
    (c : Component) (pkey : PeerKey) : RunResult :=
  let entry := [Op.clockNow, Op.contextWithTimeout, Op.lock]
  let deferred := [Op.cancel, Op.downgradeLock, Op.clockNow, Op.lockedObserve]
  match c.peers pkey with
  | none =>
    { c := c, removed := 0, done := true, duplicate := true,
      ops := entry ++ [Op.peersLookup] ++ deferred }
  | some pinfo =>
    let out := flush ctx c.rib pinfo.reference config.RIBPeerRemovalBatchRoutes
    if out.done then
      { c := { c with rib := out.rib, peers := Function.update c.peers pkey none },
        removed := out.removed, done := true, duplicate := false,
        ops := entry ++ [Op.peersLookup, Op.flushPeerContext, Op.peersDelete] ++ deferred }
    else
      { c := { c with rib := out.rib },
        removed := out.removed, done := false, duplicate := false,
        ops := entry ++ [Op.peersLookup, Op.flushPeerContext] ++ deferred }

/-- Outcome of the second closure of an iteration (the update under the shared lock). -/
structure StatsResult where
  c : Component
  done : Bool
  ops : List Op

/-- Second closure of an iteration: update the metrics and, if the run was incomplete,
sleep or observe shutdown; ends with `RUnlock`. -/
def statsRun (c : Component) (label : Label) (removed : Nat) (done duplicate dying : Bool) :
    StatsResult :=
  let m := { c.metrics with
    routes := Function.update c.metrics.routes label (c.metrics.routes label - (removed : Int)) }
  if done then
    if !duplicate then
      { c := { c with metrics := { m with
                peers := Function.update m.peers label (m.peers label - 1),
                peerRemovalDone :=
                  Function.update m.peerRemovalDone label (m.peerRemovalDone label + 1) } },
        done := true,
        ops := [Op.routesSub, Op.peersDec, Op.peerRemovalDoneInc, Op.rUnlock] }
    else
      { c := { c with metrics := m }, done := true, ops := [Op.routesSub, Op.rUnlock] }
  else
    { c := { c with metrics := { m with
              peerRemovalPartial :=
                Function.update m.peerRemovalPartial label (m.peerRemovalPartial label + 1) } },
      done := dying,
      ops := [Op.routesSub, Op.peerRemovalPartialInc, Op.sleepSelect, Op.rUnlock] }

/-- Record of one iteration of the per-key loop. `removed`, `flushed` and `duplicate` are
what the first closure returned; `done` is the loop condition after the second closure;
`after` is the component when the iteration ends. -/
structure Iteration where
  after : Component
  removed : Nat
  flushed : Bool
  duplicate : Bool
  done : Bool
  ops : List Op

/-- One iteration of the per-key loop. -/
def removalIteration (flush : Flush) (config : Configuration) (env : Env)
    (c : Component) (pkey : PeerKey) : Iteration :=
  let run := removalRun flush config env.ctx c pkey
  let stats := statsRun run.c (exporterStr pkey) run.removed run.done run.duplicate env.dying
  { after := stats.c, removed := run.removed, flushed := run.done,
    duplicate := run.duplicate, done := stats.done, ops := run.ops ++ stats.ops }

/-- Outcome of the per-key loop: the component, the iterations made, the inputs not
consumed, and whether the loop reached its `break`. -/
structure LoopResult where
  c : Component
  trace : List Iteration
  rest : List Env
  finished : Bool

/-- The per-key loop: iterate until an iteration ends with `done`. -/
def perKeyLoop (flush : Flush) (config : Configuration) (pkey : PeerKey) :
    List Env → Component → LoopResult
  | [], c => { c := c, trace := [], rest := [], finished := false }
  | env :: rest, c =>
    let it := removalIteration flush config env c pkey
    if it.done then
      { c := it.after, trace := [it], rest := rest, finished := true }
    else
      let r := perKeyLoop flush config pkey rest it.after
      { c := r.c, trace := it :: r.trace, rest := r.rest, finished := r.finished }

/-- Outcome of the outer `select`. -/
inductive Select where
  | dying
  | recv (pkey : PeerKey)
deriving DecidableEq, Repr

/-- Go error value. -/
abbrev Error := String

/-- Outcome of the worker: `returned = none` while it has not returned, and
`some err` once it returned `err` (`none` for nil). -/
structure WorkerResult where
  c : Component
  trace : List Iteration
  returned : Option (Option Error)

/-- The worker: drain the removal queue until shutdown. -/
def peerRemovalWorker (flush : Flush) (config : Configuration) :
    List Select → List Env → Component → WorkerResult
  | [], _, c => { c := c, trace := [], returned := none }
  | Select.dying :: _, _, c => { c := c, trace := [], returned := some none }
  | Select.recv pkey :: sels, envs, c =>
    let r := perKeyLoop flush config pkey envs c
    if r.finished then
      let w := peerRemovalWorker flush config sels r.rest r.c
      { c := w.c, trace := r.trace ++ w.trace, returned := w.returned }
    else
      { c := r.c, trace := r.trace, returned := none }

/-- Number of times `op` occurs in the trace. -/
def opCount (op : Op) (trace : List Iteration) : Nat :=
  (trace.map (fun it => it.ops.count op)).sum

/-- Sum of the removed counts returned by the batches of the trace. -/
def removedTotal (trace : List Iteration) : Nat :=
  (trace.map (fun it => it.removed)).sum

/-- Round-up division. -/
def ceilDiv (r b : Nat) : Nat := (r + b - 1) / b

/-- Modelled from the spec: the contract of `flushPeerContext` (§4.1). At most `maxRoutes`
routes are removed, all of them routes of `reference`, `removed` counts them, `done` is
reported only when no route remains for `reference`, and the routes of every other
reference are left as they were. -/
structure FlushContract (flush : Flush) : Prop where
  removed_le : ∀ ctx rib reference maxRoutes,
    (flush ctx rib reference maxRoutes).removed ≤ maxRoutes
  removed_count : ∀ ctx rib reference maxRoutes,
    (flush ctx rib reference maxRoutes).removed
      + routeCount reference (flush ctx rib reference maxRoutes).rib = routeCount reference rib
  done_empty : ∀ ctx rib reference maxRoutes,
    (flush ctx rib reference maxRoutes).done = true →
      routeCount reference (flush ctx rib reference maxRoutes).rib = 0
  others_kept : ∀ ctx rib reference maxRoutes other, other ≠ reference →
    routesOf other (flush ctx rib reference maxRoutes).rib = routesOf other rib

/-- The component once the removal of `pkey` (reference `reference`, `total` routes) has
completed after `runs` incomplete runs. -/
def removedState (c : Component) (pkey : PeerKey) (reference total runs : Nat) : Component :=
  { peers := Function.update c.peers pkey none,
    rib := c.rib.filter (fun r => decide (r.peer ≠ reference)),
    metrics :=
      { routes := Function.update c.metrics.routes (exporterStr pkey)
          (c.metrics.routes (exporterStr pkey) - (total : Int)),
        peers := Function.update c.metrics.peers (exporterStr pkey)
          (c.metrics.peers (exporterStr pkey) - 1),
        peerRemovalDone := Function.update c.metrics.peerRemovalDone (exporterStr pkey)
          (c.metrics.peerRemovalDone (exporterStr pkey) + 1),
        peerRemovalPartial := Function.update c.metrics.peerRemovalPartial (exporterStr pkey)
          (c.metrics.peerRemovalPartial (exporterStr pkey) + runs) } }

/-- The component after an incomplete quiet run that removed a full batch. -/
def batchState (c : Component) (pkey : PeerKey) (reference batch : Nat) : Component :=
  { peers := c.peers,
    rib := (removeUpTo reference c.rib batch).1,
    metrics :=
      { routes := Function.update c.metrics.routes (exporterStr pkey)
          (c.metrics.routes (exporterStr pkey) - (batch : Int)),
        peers := c.metrics.peers,
        peerRemovalDone := c.metrics.peerRemovalDone,
        peerRemovalPartial := Function.update c.metrics.peerRemovalPartial (exporterStr pkey)
          (c.metrics.peerRemovalPartial (exporterStr pkey) + 1) } }

/-- Iterations the removal of `total` routes takes with batches of `batch` routes. -/
def runsNeeded (total batch : Nat) : Nat := max 1 (ceilDiv total batch)

/-! ## Sample data -/

/-- A registered peer of exporter 10. -/
def sampleKey : PeerKey := { exporter := { addr := 10, port := 179 }, peer := 1 }

/-- Another registered peer of the same exporter. -/
def otherKey : PeerKey := { exporter := { addr := 10, port := 179 }, peer := 2 }

/-- A registered peer that owns no route. -/
def idleKey : PeerKey := { exporter := { addr := 11, port := 179 }, peer := 1 }

/-- A peer that is not registered. -/
def absentKey : PeerKey := { exporter := { addr := 12, port := 179 }, peer := 1 }

/-- Five routes under reference 7 and two under reference 8. -/
def sampleRIB : RIB :=
  [⟨7, 1⟩, ⟨8, 1⟩, ⟨7, 2⟩, ⟨7, 3⟩, ⟨8, 2⟩, ⟨7, 4⟩, ⟨7, 5⟩]

/-- Metrics before any removal. -/
def sampleMetrics : Metrics :=
  { routes := fun l => if l = 10 then 7 else 0,
    peers := fun l => if l = 10 then 2 else if l = 11 then 1 else 0,
    peerRemovalDone := fun _ => 0,
    peerRemovalPartial := fun _ => 0 }

/-- Registry with `sampleKey`, `otherKey` and `idleKey`. -/
def sampleComponent : Component :=
  { peers := fun k =>
      if k = sampleKey then some ⟨7⟩
      else if k = otherKey then some ⟨8⟩
      else if k = idleKey then some ⟨9⟩
      else none,
    rib := sampleRIB,
    metrics := sampleMetrics }

/-- Batches of two routes. -/
def sampleConfig : Configuration :=
  { RIBPeerRemovalMaxTime := 200, RIBPeerRemovalBatchRoutes := 2,
    RIBPeerRemovalSleepInterval := 500 }

/-- No deadline expiry, no shutdown. -/
def quietEnv : Env := { ctx := { expiresAfter := none }, dying := false }

/-- No deadline expiry, shutdown observed during the sleep. -/
def dyingEnv : Env := { ctx := { expiresAfter := none }, dying := true }

/-- Deadline expiry before any route is deleted, no shutdown. -/
def stalledEnv : Env := { ctx := { expiresAfter := some 0 }, dying := false }

/-! ## Lemmas -/

theorem routeCount_cons (reference : Nat) (r : Route) (rib : RIB) :
    routeCount reference (r :: rib)
      = (if r.peer = reference then 1 else 0) + routeCount reference rib := by
  unfold routeCount
  by_cases h : r.peer = reference <;> simp [List.filter_cons, h, Nat.add_comm]

theorem removeUpTo_removed (reference : Nat) (rib : RIB) (n : Nat) :
    (removeUpTo reference rib n).2 = min n (routeCount reference rib) := by
  induction rib generalizing n with
  | nil => simp [removeUpTo, routeCount]
  | cons r rest ih =>
    rw [routeCount_cons]
    by_cases h : r.peer = reference
    · cases n with
      | zero => simp [removeUpTo, h]
      | succ m => simp [removeUpTo, h, ih m]; omega
    · simp [removeUpTo, h, ih n]

theorem removeUpTo_count (reference : Nat) (rib : RIB) (n : Nat) :
    routeCount reference (removeUpTo reference rib n).1 = routeCount reference rib - n := by
  induction rib generalizing n with
  | nil => simp [removeUpTo, routeCount]
  | cons r rest ih =>
    by_cases h : r.peer = reference
    · cases n with
      | zero => simp [removeUpTo, h]
      | succ m => simp [removeUpTo, h, ih m, routeCount_cons]; omega
    · simp [removeUpTo, h, ih n, routeCount_cons]

theorem removeUpTo_routesOf (reference other : Nat) (hne : other ≠ reference)
    (rib : RIB) (n : Nat) :
    routesOf other (removeUpTo reference rib n).1 = routesOf other rib := by
  induction rib generalizing n with
  | nil => simp [removeUpTo]
  | cons r rest ih =>
    by_cases h : r.peer = reference
    · cases n with
      | zero => simp [removeUpTo, h]
      | succ m =>
        have hr : ¬ reference = other := fun e => hne e.symm
        have := ih m
        simp only [routesOf] at this ⊢
        simp [removeUpTo, h, List.filter_cons, hr, this]
    · have := ih n
      simp only [routesOf] at this ⊢
      simp [removeUpTo, h, List.filter_cons, this]

theorem removeUpTo_filter (reference : Nat) (rib : RIB) (n : Nat) :
    (removeUpTo reference rib n).1.filter (fun r => decide (r.peer ≠ reference))
      = rib.filter (fun r => decide (r.peer ≠ reference)) := by
  induction rib generalizing n with
  | nil => simp [removeUpTo]
  | cons r rest ih =>
    by_cases h : r.peer = reference
    · cases n with
      | zero => simp [removeUpTo, h]
      | succ m => simpa [removeUpTo, h, List.filter_cons] using ih m
    · simpa [removeUpTo, h, List.filter_cons] using ih n

theorem removeUpTo_all (reference : Nat) (rib : RIB) (n : Nat)
    (h : routeCount reference rib ≤ n) :
    (removeUpTo reference rib n).1 = rib.filter (fun r => decide (r.peer ≠ reference)) := by
  induction rib generalizing n with
  | nil => simp [removeUpTo]
  | cons r rest ih =>
    rw [routeCount_cons] at h
    by_cases hr : r.peer = reference
    · cases n with
      | zero => simp [hr] at h
      | succ m =>
        have hm : routeCount reference rest ≤ m := by simp [hr] at h; omega
        simpa [removeUpTo, hr, List.filter_cons] using ih m hm
    · have hn : routeCount reference rest ≤ n := by simpa [hr] using h
      simpa [removeUpTo, hr, List.filter_cons] using ih n hn

/-- The model of `flushPeerContext` meets the contract of §4.1. -/
theorem flushPeerContext_contract : FlushContract flushPeerContext := by
  constructor
  · intro ctx rib reference maxRoutes
    unfold flushPeerContext
    cases hctx : ctx.expiresAfter with
    | none => simp [removeUpTo_removed]
    | some k =>
      by_cases hk : k < min maxRoutes (routeCount reference rib)
      · simp [hk, removeUpTo_removed]; omega
      · simp [hk, removeUpTo_removed]
  · intro ctx rib reference maxRoutes
    unfold flushPeerContext
    cases hctx : ctx.expiresAfter with
    | none => simp [removeUpTo_removed, removeUpTo_count]; omega
    | some k =>
      by_cases hk : k < min maxRoutes (routeCount reference rib)
      · simp [hk, removeUpTo_removed, removeUpTo_count]; omega
      · simp [hk, removeUpTo_removed, removeUpTo_count]; omega
  · intro ctx rib reference maxRoutes
    unfold flushPeerContext
    cases hctx : ctx.expiresAfter with
    | none => simp
    | some k =>
      by_cases hk : k < min maxRoutes (routeCount reference rib)
      · simp [hk]
      · simp [hk]
  · intro ctx rib reference maxRoutes other hne
    unfold flushPeerContext
    cases hctx : ctx.expiresAfter with
    | none => simp [removeUpTo_routesOf _ _ hne]
    | some k =>
      by_cases hk : k < min maxRoutes (routeCount reference rib)
      · simp [hk, removeUpTo_routesOf _ _ hne]
      · simp [hk, removeUpTo_routesOf _ _ hne]

theorem statsRun_zero_duplicate (c : Component) (label : Label) (dying : Bool) :
    (statsRun c label 0 true true dying).c = c := by
  simp [statsRun]

theorem removalIteration_absent_after (flush : Flush) (config : Configuration) (env : Env)
    (c : Component) (pkey : PeerKey) (h : c.peers pkey = none) :
    (removalIteration flush config env c pkey).after = c := by
  simp [removalIteration, removalRun, h, statsRun]

theorem removalIteration_absent_done (flush : Flush) (config : Configuration) (env : Env)
    (c : Component) (pkey : PeerKey) (h : c.peers pkey = none) :
    (removalIteration flush config env c pkey).done = true
      ∧ (removalIteration flush config env c pkey).duplicate = true
      ∧ (removalIteration flush config env c pkey).removed = 0 := by
  simp [removalIteration, removalRun, h, statsRun]

theorem removalIteration_peers_none (flush : Flush) (config : Configuration) (env : Env)
    (c : Component) (pkey k : PeerKey) (h : c.peers k = none) :
    (removalIteration flush config env c pkey).after.peers k = none := by
  unfold removalIteration removalRun statsRun
  cases hp : c.peers pkey with
  | none => simp [h]
  | some pinfo =>
    by_cases hd : (flush env.ctx c.rib pinfo.reference config.RIBPeerRemovalBatchRoutes).done
    · by_cases hk : k = pkey
      · simp [hd, hk]
      · simp [hd, Function.update_noteq hk, h]
    · simp [hd, h]

theorem perKeyLoop_peers_none (flush : Flush) (config : Configuration) (pkey k : PeerKey)
    (envs : List Env) (c : Component) (h : c.peers k = none) :
    (perKeyLoop flush config pkey envs c).c.peers k = none := by
  induction envs generalizing c with
  | nil => simpa [perKeyLoop] using h
  | cons env rest ih =>
    unfold perKeyLoop
    by_cases hd : (removalIteration flush config env c pkey).done
    · simpa [hd] using removalIteration_peers_none flush config env c pkey k h
    · simpa [hd] using ih _ (removalIteration_peers_none flush config env c pkey k h)

theorem peerRemovalWorker_peers_none (flush : Flush) (config : Configuration) (k : PeerKey)
    (sels : List Select) (envs : List Env) (c : Component) (h : c.peers k = none) :
    (peerRemovalWorker flush config sels envs c).c.peers k = none := by
  induction sels generalizing envs c with
  | nil => simpa [peerRemovalWorker] using h
  | cons sel rest ih =>
    cases sel with
    | dying => simpa [peerRemovalWorker] using h
    | recv pkey =>
      unfold peerRemovalWorker
      by_cases hf : (perKeyLoop flush config pkey envs c).finished
      · simpa [hf] using ih _ _ (perKeyLoop_peers_none flush config pkey k envs c h)
      · simpa [hf] using perKeyLoop_peers_none flush config pkey k envs c h

theorem peerRemovalWorker_returned (flush : Flush) (config : Configuration)
    (sels : List Select) (envs : List Env) (c : Component) :
    (peerRemovalWorker flush config sels envs c).returned = none
      ∨ (peerRemovalWorker flush config sels envs c).returned = some none := by
  induction sels generalizing envs c with
  | nil => simp [peerRemovalWorker]
  | cons sel rest ih =>
    cases sel with
    | dying => simp [peerRemovalWorker]
    | recv pkey =>
      unfold peerRemovalWorker
      by_cases hf : (perKeyLoop flush config pkey envs c).finished
      · simpa [hf] using ih _ _
      · simp [hf]

theorem removalIteration_routes (flush : Flush) (config : Configuration) (env : Env)
    (c : Component) (pkey : PeerKey) :
    (removalIteration flush config env c pkey).after.metrics.routes
      = Function.update c.metrics.routes (exporterStr pkey)
          (c.metrics.routes (exporterStr pkey)
            - ((removalIteration flush config env c pkey).removed : Int)) := by
  unfold removalIteration removalRun statsRun
  cases hp : c.peers pkey with
  | none => simp
  | some pinfo =>
    by_cases hd : (flush env.ctx c.rib pinfo.reference config.RIBPeerRemovalBatchRoutes).done
      <;> simp [hd]

theorem removalIteration_continue (flush : Flush) (config : Configuration) (env : Env)
    (c : Component) (pkey : PeerKey)
    (h : (removalIteration flush config env c pkey).done = false) :
    (removalIteration flush config env c pkey).after.peers = c.peers := by
  revert h
  unfold removalIteration removalRun statsRun
  cases hp : c.peers pkey with
  | none => simp
  | some pinfo =>
    by_cases hd : (flush env.ctx c.rib pinfo.reference config.RIBPeerRemovalBatchRoutes).done
      <;> simp [hd]

theorem removalIteration_removed_count (flush : Flush) (hflush : FlushContract flush)
    (config : Configuration) (env : Env) (c : Component) (pkey : PeerKey) (pinfo : PeerInfo)
    (h : c.peers pkey = some pinfo) :
    (removalIteration flush config env c pkey).removed
      + routeCount pinfo.reference (removalIteration flush config env c pkey).after.rib
      = routeCount pinfo.reference c.rib := by
  have hc := hflush.removed_count env.ctx c.rib pinfo.reference
    config.RIBPeerRemovalBatchRoutes
  unfold removalIteration removalRun statsRun
  by_cases hd : (flush env.ctx c.rib pinfo.reference config.RIBPeerRemovalBatchRoutes).done
    <;> simpa [h, hd] using hc

theorem removalIteration_ops (flush : Flush) (config : Configuration) (env : Env)
    (c : Component) (pkey : PeerKey) :
    (removalIteration flush config env c pkey).ops
        = [Op.clockNow, Op.contextWithTimeout, Op.lock, Op.peersLookup,
            Op.cancel, Op.downgradeLock, Op.clockNow, Op.lockedObserve,
            Op.routesSub, Op.rUnlock]
    ∨ (removalIteration flush config env c pkey).ops
        = [Op.clockNow, Op.contextWithTimeout, Op.lock, Op.peersLookup, Op.flushPeerContext,
            Op.peersDelete, Op.cancel, Op.downgradeLock, Op.clockNow, Op.lockedObserve,
            Op.routesSub, Op.peersDec, Op.peerRemovalDoneInc, Op.rUnlock]
    ∨ (removalIteration flush config env c pkey).ops
        = [Op.clockNow, Op.contextWithTimeout, Op.lock, Op.peersLookup, Op.flushPeerContext,
            Op.cancel, Op.downgradeLock, Op.clockNow, Op.lockedObserve,
            Op.routesSub, Op.peerRemovalPartialInc, Op.sleepSelect, Op.rUnlock] := by
  unfold removalIteration removalRun statsRun
  cases hp : c.peers pkey with
  | none => simp
  | some pinfo =>
    by_cases hd : (flush env.ctx c.rib pinfo.reference config.RIBPeerRemovalBatchRoutes).done
      <;> simp [hd]

theorem removalIteration_lock_count (flush : Flush) (config : Configuration) (env : Env)
    (c : Component) (pkey : PeerKey) :
    (removalIteration flush config env c pkey).ops.count Op.lock = 1 := by
  rcases removalIteration_ops flush config env c pkey with h | h | h <;> rw [h] <;> decide

theorem opCount_cons (op : Op) (it : Iteration) (trace : List Iteration) :
    opCount op (it :: trace) = it.ops.count op + opCount op trace := by
  simp [opCount]

theorem removedTotal_cons (it : Iteration) (trace : List Iteration) :
    removedTotal (it :: trace) = it.removed + removedTotal trace := by
  simp [removedTotal]

theorem perKeyLoop_lock_count (flush : Flush) (config : Configuration) (pkey : PeerKey)
    (envs : List Env) (c : Component) :
    opCount Op.lock (perKeyLoop flush config pkey envs c).trace
      = (perKeyLoop flush config pkey envs c).trace.length := by
  induction envs generalizing c with
  | nil => simp [perKeyLoop, opCount]
  | cons env rest ih =>
    unfold perKeyLoop
    by_cases hd : (removalIteration flush config env c pkey).done
    · simp [hd, opCount, removalIteration_lock_count]
    · simp [hd, opCount_cons, removalIteration_lock_count, ih, Nat.add_comm]

theorem perKeyLoop_routes (flush : Flush) (config : Configuration) (pkey : PeerKey)
    (envs : List Env) (c : Component) :
    (perKeyLoop flush config pkey envs c).c.metrics.routes
      = Function.update c.metrics.routes (exporterStr pkey)
          (c.metrics.routes (exporterStr pkey)
            - (removedTotal (perKeyLoop flush config pkey envs c).trace : Int)) := by
  induction envs generalizing c with
  | nil => simp [perKeyLoop, removedTotal]
  | cons env rest ih =>
    unfold perKeyLoop
    by_cases hd : (removalIteration flush config env c pkey).done
    · simp [hd, removedTotal, removalIteration_routes]
    · simp only [hd, Bool.false_eq_true, if_false]
      rw [ih, removalIteration_routes, removedTotal_cons]
      simp only [Function.update_same, Function.update_idem]
      rw [Nat.cast_add, Int.sub_sub]

theorem perKeyLoop_removed_count (flush : Flush) (hflush : FlushContract flush)
    (config : Configuration) (pkey : PeerKey) (pinfo : PeerInfo)
    (envs : List Env) (c : Component) (h : c.peers pkey = some pinfo) :
    removedTotal (perKeyLoop flush config pkey envs c).trace
      + routeCount pinfo.reference (perKeyLoop flush config pkey envs c).c.rib
      = routeCount pinfo.reference c.rib := by
  induction envs generalizing c with
  | nil => simp [perKeyLoop, removedTotal]
  | cons env rest ih =>
    have hit := removalIteration_removed_count flush hflush config env c pkey pinfo h
    unfold perKeyLoop
    by_cases hd : (removalIteration flush config env c pkey).done
    · simpa [hd, removedTotal] using hit
    · have hd' : (removalIteration flush config env c pkey).done = false := by simpa using hd
      have hp : (removalIteration flush config env c pkey).after.peers pkey = some pinfo := by
        rw [removalIteration_continue flush config env c pkey hd']; exact h
      have := ih _ hp
      simp only [hd, Bool.false_eq_true, if_false, removedTotal_cons]
      omega

theorem flushPeerContext_quiet (ctx : Context) (hctx : ctx.expiresAfter = none) (rib : RIB)
    (reference maxRoutes : Nat) :
    flushPeerContext ctx rib reference maxRoutes
      = { rib := (removeUpTo reference rib maxRoutes).1,
          removed := min maxRoutes (routeCount reference rib),
          done := decide (routeCount reference rib ≤ maxRoutes) } := by
  unfold flushPeerContext
  simp [hctx, removeUpTo_removed, removeUpTo_count, Nat.sub_eq_zero_iff_le]

theorem removalIteration_quiet_last (config : Configuration) (env : Env)
    (hctx : env.ctx.expiresAfter = none) (c : Component) (pkey : PeerKey) (pinfo : PeerInfo)
    (h : c.peers pkey = some pinfo)
    (hle : routeCount pinfo.reference c.rib ≤ config.RIBPeerRemovalBatchRoutes) :
    (removalIteration flushPeerContext config env c pkey).after
        = removedState c pkey pinfo.reference (routeCount pinfo.reference c.rib) 0
    ∧ (removalIteration flushPeerContext config env c pkey).removed
        = routeCount pinfo.reference c.rib
    ∧ (removalIteration flushPeerContext config env c pkey).flushed = true
    ∧ (removalIteration flushPeerContext config env c pkey).duplicate = false
    ∧ (removalIteration flushPeerContext config env c pkey).done = true := by
  have hall := removeUpTo_all pinfo.reference c.rib config.RIBPeerRemovalBatchRoutes hle
  simp [removalIteration, removalRun, statsRun, h, flushPeerContext_quiet _ hctx, hle,
    removedState, hall, Nat.min_eq_right hle]

theorem removalIteration_quiet_batch (config : Configuration) (env : Env)
    (hctx : env.ctx.expiresAfter = none) (hdying : env.dying = false)
    (c : Component) (pkey : PeerKey) (pinfo : PeerInfo)
    (h : c.peers pkey = some pinfo)
    (hlt : config.RIBPeerRemovalBatchRoutes < routeCount pinfo.reference c.rib) :
    (removalIteration flushPeerContext config env c pkey).after
        = batchState c pkey pinfo.reference config.RIBPeerRemovalBatchRoutes
    ∧ (removalIteration flushPeerContext config env c pkey).removed
        = config.RIBPeerRemovalBatchRoutes
    ∧ (removalIteration flushPeerContext config env c pkey).flushed = false
    ∧ (removalIteration flushPeerContext config env c pkey).duplicate = false
    ∧ (removalIteration flushPeerContext config env c pkey).done = false := by
  have hnle : ¬ routeCount pinfo.reference c.rib ≤ config.RIBPeerRemovalBatchRoutes := by
    omega
  simp [removalIteration, removalRun, statsRun, h, flushPeerContext_quiet _ hctx, hnle,
    batchState, hdying, Nat.min_eq_left (Nat.le_of_lt hlt)]

theorem ceilDiv_zero (b : Nat) : ceilDiv 0 b = 0 := by
  unfold ceilDiv
  cases b with
  | zero => simp
  | succ k => simpa using Nat.div_eq_of_lt (Nat.lt_succ_self k)

theorem ceilDiv_le (r b : Nat) (hr : 1 ≤ r) (hle : r ≤ b) : ceilDiv r b = 1 := by
  unfold ceilDiv
  apply Nat.div_eq_of_lt_le <;> omega

theorem ceilDiv_step (r b : Nat) (hb : 1 ≤ b) (hlt : b < r) :
    ceilDiv r b = ceilDiv (r - b) b + 1 := by
  unfold ceilDiv
  have h : r + b - 1 = (r - b + b - 1) + b := by omega
  rw [h, Nat.add_div_right _ (by omega : 0 < b)]

theorem ceilDiv_pos (r b : Nat) (hb : 1 ≤ b) (hr : 1 ≤ r) : 1 ≤ ceilDiv r b := by
  unfold ceilDiv
  exact (Nat.one_le_div_iff (by omega)).mpr (by omega)

theorem removedState_batchState (c : Component) (pkey : PeerKey) (reference batch total
    runs : Nat) (hle : batch ≤ total) :
    removedState (batchState c pkey reference batch) pkey reference (total - batch) runs
      = removedState c pkey reference total (runs + 1) := by
  simp only [removedState, batchState, Function.update_same, Function.update_idem,
    removeUpTo_filter]
  have h1 : c.metrics.routes (exporterStr pkey) - (batch : Int) - ((total - batch : Nat) : Int)
      = c.metrics.routes (exporterStr pkey) - (total : Int) := by
    rw [Nat.cast_sub hle]; ring
  have h2 : c.metrics.peerRemovalPartial (exporterStr pkey) + 1 + runs
      = c.metrics.peerRemovalPartial (exporterStr pkey) + (runs + 1) := by omega
  rw [h1, h2]

theorem runsNeeded_le (r b : Nat) (hle : r ≤ b) : runsNeeded r b = 1 := by
  unfold runsNeeded
  rcases Nat.eq_zero_or_pos r with h0 | hpos
  · simp [h0, ceilDiv_zero]
  · simp [ceilDiv_le r b hpos hle]

theorem runsNeeded_step (r b : Nat) (hb : 1 ≤ b) (hlt : b < r) :
    runsNeeded r b = runsNeeded (r - b) b + 1 := by
  unfold runsNeeded
  have h1 := ceilDiv_step r b hb hlt
  have h2 := ceilDiv_pos (r - b) b hb (by omega)
  omega

theorem perKeyLoop_quiet (config : Configuration) (hb : 1 ≤ config.RIBPeerRemovalBatchRoutes)
    (pkey : PeerKey) (pinfo : PeerInfo) (total : Nat) :
    ∀ (envs : List Env) (c : Component), c.peers pkey = some pinfo →
      routeCount pinfo.reference c.rib = total →
      (∀ e ∈ envs, e.ctx.expiresAfter = none ∧ e.dying = false) →
      runsNeeded total config.RIBPeerRemovalBatchRoutes ≤ envs.length →
      (perKeyLoop flushPeerContext config pkey envs c).finished = true
      ∧ (perKeyLoop flushPeerContext config pkey envs c).c
          = removedState c pkey pinfo.reference total
              (runsNeeded total config.RIBPeerRemovalBatchRoutes - 1)
      ∧ (perKeyLoop flushPeerContext config pkey envs c).trace.length
          = runsNeeded total config.RIBPeerRemovalBatchRoutes
      ∧ (perKeyLoop flushPeerContext config pkey envs c).rest
          = envs.drop (runsNeeded total config.RIBPeerRemovalBatchRoutes)
      ∧ removedTotal (perKeyLoop flushPeerContext config pkey envs c).trace = total
      ∧ (∀ it ∈ (perKeyLoop flushPeerContext config pkey envs c).trace,
          it.duplicate = false)
      ∧ ((perKeyLoop flushPeerContext config pkey envs c).trace.filter
          (fun it => it.flushed)).length = 1 := by
  induction total using Nat.strong_induction_on with
  | _ total ih =>
    intro envs c hp hcount hquiet hlen
    cases envs with
    | nil =>
      have : 1 ≤ runsNeeded total config.RIBPeerRemovalBatchRoutes := by
        unfold runsNeeded; omega
      simp at hlen; omega
    | cons env rest =>
      have henv := hquiet env (List.mem_cons_self _ _)
      by_cases hle : total ≤ config.RIBPeerRemovalBatchRoutes
      · have hit := removalIteration_quiet_last config env henv.1 c pkey pinfo hp
          (by rw [hcount]; exact hle)
        rw [hcount] at hit
        obtain ⟨h1, h2, h3, h4, h5⟩ := hit
        have hruns := runsNeeded_le total _ hle
        simp [perKeyLoop, h5, h1, h2, h3, h4, hruns, removedTotal]
      · have hlt : config.RIBPeerRemovalBatchRoutes < total := by omega
        have hit := removalIteration_quiet_batch config env henv.1 henv.2 c pkey pinfo hp
          (by rw [hcount]; exact hlt)
        obtain ⟨h1, h2, h3, h4, h5⟩ := hit
        have hruns := runsNeeded_step total _ hb hlt
        have hrest := ih (total - config.RIBPeerRemovalBatchRoutes) (by omega) rest
          (batchState c pkey pinfo.reference config.RIBPeerRemovalBatchRoutes)
          (by simpa [batchState] using hp)
          (by simp [batchState, removeUpTo_count, hcount])
          (fun e he => hquiet e (List.mem_cons_of_mem _ he))
          (by simp at hlen; omega)
        rw [← h1] at hrest
        obtain ⟨r1, r2, r3, r4, r5, r6, r7⟩ := hrest
        have hpos : 1 ≤ runsNeeded (total - config.RIBPeerRemovalBatchRoutes)
            config.RIBPeerRemovalBatchRoutes := by unfold runsNeeded; omega
        unfold perKeyLoop
        simp only [h5, Bool.false_eq_true, if_false]
        refine ⟨r1, ?_, ?_, ?_, ?_, ?_, ?_⟩
        · rw [r2, h1, removedState_batchState _ _ _ _ _ _ (Nat.le_of_lt hlt), hruns]
          congr 1
          omega
        · simp [r3, hruns]
        · rw [r4, hruns]; simp
        · rw [removedTotal_cons, h2, r5]; omega
        · intro it hmem
          rcases List.mem_cons.mp hmem with he | he
          · rw [he]; exact h4
          · exact r6 it he
        · rw [List.filter_cons]
          simp only [h3, Bool.false_eq_true, if_false]
          exact r7

theorem filter_length_all {α : Type} (p : α → Bool) (l : List α) (h : ∀ x ∈ l, p x = true) :
    (l.filter p).length = l.length := by
  induction l with
  | nil => simp
  | cons x xs ih =>
    have hx := h x (List.mem_cons_self _ _)
    simp [List.filter_cons, hx, ih (fun y hy => h y (List.mem_cons_of_mem _ hy))]

theorem filter_length_none {α : Type} (p : α → Bool) (l : List α)
    (h : ∀ x ∈ l, p x = false) : (l.filter p).length = 0 := by
  induction l with
  | nil => simp
  | cons x xs ih =>
    have hx := h x (List.mem_cons_self _ _)
    simp [List.filter_cons, hx, ih (fun y hy => h y (List.mem_cons_of_mem _ hy))]

theorem removalIteration_flush_count (flush : Flush) (config : Configuration) (env : Env)
    (c : Component) (pkey : PeerKey) (pinfo : PeerInfo) (h : c.peers pkey = some pinfo) :
    (removalIteration flush config env c pkey).ops.count Op.flushPeerContext = 1 := by
  unfold removalIteration removalRun statsRun
  by_cases hd : (flush env.ctx c.rib pinfo.reference config.RIBPeerRemovalBatchRoutes).done
    <;> simp [h, hd]

theorem removalIteration_others (flush : Flush) (hflush : FlushContract flush)
    (config : Configuration) (env : Env) (c : Component) (pkey : PeerKey) (pinfo : PeerInfo)
    (h : c.peers pkey = some pinfo) (other : Nat) (hne : other ≠ pinfo.reference) :
    routesOf other (removalIteration flush config env c pkey).after.rib
      = routesOf other c.rib := by
  have hc := hflush.others_kept env.ctx c.rib pinfo.reference
    config.RIBPeerRemovalBatchRoutes other hne
  unfold removalIteration removalRun statsRun
  by_cases hd : (flush env.ctx c.rib pinfo.reference config.RIBPeerRemovalBatchRoutes).done
    <;> simpa [h, hd] using hc

theorem removalIteration_complete (flush : Flush) (hflush : FlushContract flush)
    (config : Configuration) (env : Env) (c : Component) (pkey : PeerKey) (pinfo : PeerInfo)
    (h : c.peers pkey = some pinfo)
    (hdone : (removalIteration flush config env c pkey).flushed = true) :
    (removalIteration flush config env c pkey).after.peers pkey = none
    ∧ routeCount pinfo.reference (removalIteration flush config env c pkey).after.rib = 0 := by
  have hc := hflush.done_empty env.ctx c.rib pinfo.reference config.RIBPeerRemovalBatchRoutes
  revert hdone
  unfold removalIteration removalRun statsRun
  by_cases hd : (flush env.ctx c.rib pinfo.reference config.RIBPeerRemovalBatchRoutes).done
  · intro _
    simpa [h, hd] using hc hd
  · simp [h, hd]

theorem removalIteration_registered (flush : Flush) (config : Configuration) (env : Env)
    (c : Component) (pkey : PeerKey) (pinfo : PeerInfo) (h : c.peers pkey = some pinfo) :
    (removalIteration flush config env c pkey).duplicate = false := by
  unfold removalIteration removalRun
  by_cases hd : (flush env.ctx c.rib pinfo.reference config.RIBPeerRemovalBatchRoutes).done
    <;> simp [h, hd]

theorem removalIteration_incomplete (flush : Flush) (config : Configuration) (env : Env)
    (c : Component) (pkey : PeerKey)
    (hrun : (removalIteration flush config env c pkey).flushed = false) :
    (removalIteration flush config env c pkey).after.metrics.peerRemovalDone
        = c.metrics.peerRemovalDone
    ∧ (removalIteration flush config env c pkey).after.metrics.peers = c.metrics.peers := by
  revert hrun
  unfold removalIteration removalRun statsRun
  cases hp : c.peers pkey with
  | none => simp
  | some pinfo =>
    by_cases hd : (flush env.ctx c.rib pinfo.reference config.RIBPeerRemovalBatchRoutes).done
      <;> simp [hd]

theorem removalIteration_completed (flush : Flush) (config : Configuration) (env : Env)
    (c : Component) (pkey : PeerKey) (pinfo : PeerInfo) (h : c.peers pkey = some pinfo)
    (hrun : (removalIteration flush config env c pkey).flushed = true) :
    (removalIteration flush config env c pkey).after.peers = Function.update c.peers pkey none
    ∧ (removalIteration flush config env c pkey).after.metrics.peerRemovalDone
        = Function.update c.metrics.peerRemovalDone (exporterStr pkey)
            (c.metrics.peerRemovalDone (exporterStr pkey) + 1)
    ∧ (removalIteration flush config env c pkey).after.metrics.peers
        = Function.update c.metrics.peers (exporterStr pkey)
            (c.metrics.peers (exporterStr pkey) - 1) := by
  revert hrun
  unfold removalIteration removalRun statsRun
  by_cases hd : (flush env.ctx c.rib pinfo.reference config.RIBPeerRemovalBatchRoutes).done
    <;> simp [h, hd]

theorem removalIteration_done_eq (flush : Flush) (config : Configuration) (env : Env)
    (hdying : env.dying = false) (c : Component) (pkey : PeerKey) :
    (removalIteration flush config env c pkey).done
      = (removalIteration flush config env c pkey).flushed := by
  unfold removalIteration removalRun statsRun
  cases hp : c.peers pkey with
  | none => simp
  | some pinfo =>
    by_cases hd : (flush env.ctx c.rib pinfo.reference config.RIBPeerRemovalBatchRoutes).done
      <;> simp [hd, hdying]

theorem perKeyLoop_clean (flush : Flush) (config : Configuration) (pkey : PeerKey)
    (envs : List Env) (c : Component) (hquiet : ∀ e ∈ envs, e.dying = false) :
    ∀ it ∈ (perKeyLoop flush config pkey envs c).trace, it.done = it.flushed := by
  induction envs generalizing c with
  | nil => simp [perKeyLoop]
  | cons env rest ih =>
    have hit := removalIteration_done_eq flush config env (hquiet env (List.mem_cons_self _ _))
      c pkey
    have hrest := fun c' => ih c' (fun e he => hquiet e (List.mem_cons_of_mem _ he))
    unfold perKeyLoop
    by_cases hd : (removalIteration flush config env c pkey).done
    · simp only [hd, if_true]
      intro it hmem
      rw [List.mem_singleton.mp hmem, ← hit, hd]
    · simp only [hd, Bool.false_eq_true, if_false]
      intro it hmem
      rcases List.mem_cons.mp hmem with he | he
      · rw [he]; exact hit
      · exact hrest _ it he

theorem perKeyLoop_complete (flush : Flush) (hflush : FlushContract flush)
    (config : Configuration) (pkey : PeerKey) (pinfo : PeerInfo) (envs : List Env)
    (c : Component) (hp : c.peers pkey = some pinfo)
    (hfin : (perKeyLoop flush config pkey envs c).finished = true)
    (hclean : ∀ it ∈ (perKeyLoop flush config pkey envs c).trace, it.done = it.flushed) :
    (perKeyLoop flush config pkey envs c).c.peers = Function.update c.peers pkey none
    ∧ routeCount pinfo.reference (perKeyLoop flush config pkey envs c).c.rib = 0
    ∧ (∀ other, other ≠ pinfo.reference →
        routesOf other (perKeyLoop flush config pkey envs c).c.rib = routesOf other c.rib)
    ∧ (perKeyLoop flush config pkey envs c).c.metrics.peerRemovalDone
        = Function.update c.metrics.peerRemovalDone (exporterStr pkey)
            (c.metrics.peerRemovalDone (exporterStr pkey) + 1)
    ∧ (perKeyLoop flush config pkey envs c).c.metrics.peers
        = Function.update c.metrics.peers (exporterStr pkey)
            (c.metrics.peers (exporterStr pkey) - 1)
    ∧ (∀ it ∈ (perKeyLoop flush config pkey envs c).trace, it.duplicate = false)
    ∧ ((perKeyLoop flush config pkey envs c).trace.filter (fun it => it.flushed)).length
        = 1 := by
  induction envs generalizing c with
  | nil => simp [perKeyLoop] at hfin
  | cons env rest ih =>
    have hothers := removalIteration_others flush hflush config env c pkey pinfo hp
    have hreg := removalIteration_registered flush config env c pkey pinfo hp
    unfold perKeyLoop at hfin hclean ⊢
    by_cases hd : (removalIteration flush config env c pkey).done
    · simp only [hd, if_true] at hfin hclean ⊢
      have hfl : (removalIteration flush config env c pkey).flushed = true := by
        have := hclean _ (List.mem_singleton.mpr rfl)
        rw [← this]; exact hd
      obtain ⟨_, h2⟩ := removalIteration_complete flush hflush config env c pkey pinfo hp hfl
      obtain ⟨g1, g2, g3⟩ := removalIteration_completed flush config env c pkey pinfo hp hfl
      refine ⟨g1, h2, hothers, g2, g3, ?_, ?_⟩
      · intro it hmem
        rw [List.mem_singleton.mp hmem]; exact hreg
      · simp [List.filter_cons, hfl]
    · have hd' : (removalIteration flush config env c pkey).done = false := by simpa using hd
      simp only [hd, Bool.false_eq_true, if_false] at hfin hclean ⊢
      have hfl : (removalIteration flush config env c pkey).flushed = false := by
        have := hclean _ (List.mem_cons_self _ _)
        rw [← this]; exact hd'
      have hpeers := removalIteration_continue flush config env c pkey hd'
      have hp' : (removalIteration flush config env c pkey).after.peers pkey = some pinfo := by
        rw [hpeers]; exact hp
      obtain ⟨g1, g2⟩ := removalIteration_incomplete flush config env c pkey hfl
      obtain ⟨h1, h2, h3, h4, h5, h6, h7⟩ :=
        ih _ hp' hfin (fun it hit => hclean it (List.mem_cons_of_mem _ hit))
      refine ⟨?_, h2, fun other hne => (h3 other hne).trans (hothers other hne), ?_, ?_, ?_, ?_⟩
      · rw [h1, hpeers]
      · rw [h4, g1]
      · rw [h5, g2]
      · intro it hmem
        rcases List.mem_cons.mp hmem with he | he
        · rw [he]; exact hreg
        · exact h6 it he
      · rw [List.filter_cons]
        simp only [hfl, Bool.false_eq_true, if_false]
        exact h7

theorem peerRemovalWorker_duplicates (flush : Flush) (config : Configuration)
    (pkey : PeerKey) (m : Nat) :
    ∀ (envs : List Env) (c : Component), c.peers pkey = none →
      (m ≤ envs.length →
        (peerRemovalWorker flush config
          (List.replicate m (Select.recv pkey) ++ [Select.dying]) envs c).returned = some none)
      ∧ ((peerRemovalWorker flush config
          (List.replicate m (Select.recv pkey) ++ [Select.dying]) envs c).returned = some none →
        (peerRemovalWorker flush config
            (List.replicate m (Select.recv pkey) ++ [Select.dying]) envs c).c = c
        ∧ (peerRemovalWorker flush config
            (List.replicate m (Select.recv pkey) ++ [Select.dying]) envs c).trace.length = m
        ∧ (∀ it ∈ (peerRemovalWorker flush config
            (List.replicate m (Select.recv pkey) ++ [Select.dying]) envs c).trace,
              it.duplicate = true)) := by
  induction m with
  | zero =>
    intro envs c _
    simp [peerRemovalWorker]
  | succ k ih =>
    intro envs c hp
    rw [List.replicate_succ, List.cons_append]
    cases envs with
    | nil => simp [peerRemovalWorker, perKeyLoop]
    | cons env rest =>
      have hafter := removalIteration_absent_after flush config env c pkey hp
      obtain ⟨hdone, hdup, _⟩ := removalIteration_absent_done flush config env c pkey hp
      have hloop : perKeyLoop flush config pkey (env :: rest) c
          = { c := c, trace := [removalIteration flush config env c pkey],
              rest := rest, finished := true } := by
        simp [perKeyLoop, hdone, hafter]
      obtain ⟨i1, i2⟩ := ih rest c hp
      unfold peerRemovalWorker
      simp only [hloop, if_true]
      refine ⟨fun hlen => i1 (by simpa using hlen), fun hret => ?_⟩
      obtain ⟨j1, j2, j3⟩ := i2 hret
      refine ⟨j1, ?_, ?_⟩
      · simp [j2, Nat.add_comm]
      · intro it hmem
        rcases List.mem_append.mp hmem with he | he
        · rw [List.mem_singleton.mp he]; exact hdup
        · exact j3 it he

theorem routeCount_filter_ne (reference : Nat) (rib : RIB) :
    routeCount reference (rib.filter (fun r => decide (r.peer ≠ reference))) = 0 := by
  induction rib with
  | nil => simp [routeCount]
  | cons r rest ih =>
    by_cases h : r.peer = reference
    · simpa [List.filter_cons, h] using ih
    · simpa [List.filter_cons, h, routeCount_cons] using ih

/-! ## Claims -/

/-! ### C1: Duplicate requests -/

/-- C1. Duplicate request is a no-op: when the registry has no entry for the dequeued key,
an iteration yields `(removed = 0, done = true, duplicate = true)`, does not call
`flushPeerContext`, leaves the registry, the RIB and every metric of the removal
(routes, peers, done, partial) unchanged, and the per-key loop ends after that single
iteration. -/
theorem duplicate_request_is_noop (flush : Flush) (config : Configuration) (env : Env)
    (rest : List Env) (c : Component) (pkey : PeerKey) (h : c.peers pkey = none) :
    (removalIteration flush config env c pkey).removed = 0
    ∧ (removalIteration flush config env c pkey).flushed = true
    ∧ (removalIteration flush config env c pkey).duplicate = true
    ∧ (removalIteration flush config env c pkey).done = true
    ∧ Op.flushPeerContext ∉ (removalIteration flush config env c pkey).ops
    ∧ (removalIteration flush config env c pkey).after.peers = c.peers
    ∧ (removalIteration flush config env c pkey).after.rib = c.rib
    ∧ (removalIteration flush config env c pkey).after.metrics.routes = c.metrics.routes
    ∧ (removalIteration flush config env c pkey).after.metrics.peers = c.metrics.peers
    ∧ (removalIteration flush config env c pkey).after.metrics.peerRemovalDone
        = c.metrics.peerRemovalDone
    ∧ (removalIteration flush config env c pkey).after.metrics.peerRemovalPartial
        = c.metrics.peerRemovalPartial
    ∧ (perKeyLoop flush config pkey (env :: rest) c).finished = true
    ∧ (perKeyLoop flush config pkey (env :: rest) c).trace
        = [removalIteration flush config env c pkey]
    ∧ (perKeyLoop flush config pkey (env :: rest) c).rest = rest := by
  simp [perKeyLoop, removalIteration, removalRun, h, statsRun]

/-- Witness of C1 on the sample component: `absentKey` is not registered. -/
theorem duplicate_request_is_noop_witness :
    sampleComponent.peers absentKey = none
    ∧ (removalIteration flushPeerContext sampleConfig quietEnv sampleComponent absentKey).removed
        = 0
    ∧ (removalIteration flushPeerContext sampleConfig quietEnv sampleComponent absentKey).done
        = true
    ∧ (removalIteration flushPeerContext sampleConfig quietEnv sampleComponent
        absentKey).duplicate = true
    ∧ (removalIteration flushPeerContext sampleConfig quietEnv sampleComponent
        absentKey).after.rib = sampleRIB
    ∧ (perKeyLoop flushPeerContext sampleConfig absentKey [quietEnv, quietEnv]
        sampleComponent).rest = [quietEnv] :=
  have h := duplicate_request_is_noop flushPeerContext sampleConfig quietEnv [quietEnv]
    sampleComponent absentKey (by decide)
  ⟨by decide, h.1, h.2.2.2.1, h.2.2.1, h.2.2.2.2.2.2.1, h.2.2.2.2.2.2.2.2.2.2.2.2.2⟩

/-! ### C2: Idempotence -/

/-- C2. Idempotence of repeated requests: let a registered peer own R routes and let the
worker receive its key N > 1 times in a row, then the shutdown signal, with no shutdown
observed during the removal. For every `flushPeerContext` that keeps its contract, when
the worker has processed the N requests (it returns nil), there was exactly one real
removal (done counter up by 1, active-peer gauge down by 1) and N − 1 iterations
reporting `duplicate = true`, the routes gauge has gone down by R in total, the peer and
its routes are gone, and the final component is the one reached when the key is received
once. With the model of the RIB store, a batch size of at least 1 and no deadline expiry,
the worker does process the N requests, given `max 1 (ceil(R/B)) + (N − 1)` iterations. -/
theorem repeated_requests_idempotent (config : Configuration) (pkey : PeerKey)
    (pinfo : PeerInfo) (n : Nat) (hn : 1 < n) (envs : List Env) (c : Component)
    (hp : c.peers pkey = some pinfo) (hquiet : ∀ e ∈ envs, e.dying = false) :
    (∀ flush : Flush, FlushContract flush →
      (peerRemovalWorker flush config
        (List.replicate n (Select.recv pkey) ++ [Select.dying]) envs c).returned = some none →
      (peerRemovalWorker flush config [Select.recv pkey, Select.dying] envs c).returned
          = some none
      ∧ (peerRemovalWorker flush config
          (List.replicate n (Select.recv pkey) ++ [Select.dying]) envs c).c
          = (peerRemovalWorker flush config [Select.recv pkey, Select.dying] envs c).c
      ∧ ((peerRemovalWorker flush config
          (List.replicate n (Select.recv pkey) ++ [Select.dying]) envs c).trace.filter
            (fun it => it.duplicate)).length = n - 1
      ∧ ((peerRemovalWorker flush config
          (List.replicate n (Select.recv pkey) ++ [Select.dying]) envs c).trace.filter
            (fun it => it.flushed && !it.duplicate)).length = 1
      ∧ (peerRemovalWorker flush config
          (List.replicate n (Select.recv pkey) ++ [Select.dying]) envs c).c.metrics.peerRemovalDone
          = Function.update c.metrics.peerRemovalDone (exporterStr pkey)
              (c.metrics.peerRemovalDone (exporterStr pkey) + 1)
      ∧ (peerRemovalWorker flush config
          (List.replicate n (Select.recv pkey) ++ [Select.dying]) envs c).c.metrics.peers
          = Function.update c.metrics.peers (exporterStr pkey)
              (c.metrics.peers (exporterStr pkey) - 1)
      ∧ (peerRemovalWorker flush config
          (List.replicate n (Select.recv pkey) ++ [Select.dying]) envs c).c.metrics.routes
          = Function.update c.metrics.routes (exporterStr pkey)
              (c.metrics.routes (exporterStr pkey)
                - (routeCount pinfo.reference c.rib : Int))
      ∧ (peerRemovalWorker flush config
          (List.replicate n (Select.recv pkey) ++ [Select.dying]) envs c).c.peers
          = Function.update c.peers pkey none
      ∧ routeCount pinfo.reference (peerRemovalWorker flush config
          (List.replicate n (Select.recv pkey) ++ [Select.dying]) envs c).c.rib = 0)
    ∧ (1 ≤ config.RIBPeerRemovalBatchRoutes →
        (∀ e ∈ envs, e.ctx.expiresAfter = none) →
        max 1 (ceilDiv (routeCount pinfo.reference c.rib) config.RIBPeerRemovalBatchRoutes)
          + (n - 1) ≤ envs.length →
        (peerRemovalWorker flushPeerContext config
          (List.replicate n (Select.recv pkey) ++ [Select.dying]) envs c).returned
          = some none) := by
  obtain ⟨m, rfl⟩ : ∃ m, n = m + 1 := ⟨n - 1, by omega⟩
  have hunfold : ∀ flush : Flush, (perKeyLoop flush config pkey envs c).finished = true →
      peerRemovalWorker flush config
        (List.replicate (m + 1) (Select.recv pkey) ++ [Select.dying]) envs c
      = { c := (peerRemovalWorker flush config
              (List.replicate m (Select.recv pkey) ++ [Select.dying])
              (perKeyLoop flush config pkey envs c).rest
              (perKeyLoop flush config pkey envs c).c).c,
          trace := (perKeyLoop flush config pkey envs c).trace
            ++ (peerRemovalWorker flush config
              (List.replicate m (Select.recv pkey) ++ [Select.dying])
              (perKeyLoop flush config pkey envs c).rest
              (perKeyLoop flush config pkey envs c).c).trace,
          returned := (peerRemovalWorker flush config
              (List.replicate m (Select.recv pkey) ++ [Select.dying])
              (perKeyLoop flush config pkey envs c).rest
              (perKeyLoop flush config pkey envs c).c).returned } := by
    intro flush hf
    rw [List.replicate_succ, List.cons_append]
    simp [peerRemovalWorker, hf]
  constructor
  · intro flush hflush hret
    have hf : (perKeyLoop flush config pkey envs c).finished = true := by
      by_contra hnf
      rw [List.replicate_succ, List.cons_append] at hret
      simp [peerRemovalWorker, hnf] at hret
    have hclean := perKeyLoop_clean flush config pkey envs c hquiet
    obtain ⟨l1, l2, _, l4, l5, l6, l7⟩ :=
      perKeyLoop_complete flush hflush config pkey pinfo envs c hp hf hclean
    have hnone : (perKeyLoop flush config pkey envs c).c.peers pkey = none := by
      rw [l1]; simp
    have hcount := perKeyLoop_removed_count flush hflush config pkey pinfo envs c hp
    have hroutes := perKeyLoop_routes flush config pkey envs c
    rw [l2, Nat.add_zero] at hcount
    rw [hcount] at hroutes
    have hone : peerRemovalWorker flush config [Select.recv pkey, Select.dying] envs c
        = { c := (perKeyLoop flush config pkey envs c).c,
            trace := (perKeyLoop flush config pkey envs c).trace ++ [],
            returned := some none } := by
      simp [peerRemovalWorker, hf]
    rw [hunfold flush hf] at hret ⊢
    obtain ⟨d2, d3, d4⟩ :=
      (peerRemovalWorker_duplicates flush config pkey m _ _ hnone).2 hret
    rw [hone]
    refine ⟨rfl, d2, ?_, ?_, ?_, ?_, ?_, ?_, ?_⟩
    · show (List.filter _ (_ ++ _)).length = _
      rw [List.filter_append, List.length_append, filter_length_none _ _ l6,
        filter_length_all _ _ d4, d3]
      simp
    · show (List.filter _ (_ ++ _)).length = _
      have e1 : (perKeyLoop flush config pkey envs c).trace.filter
            (fun it => it.flushed && !it.duplicate)
          = (perKeyLoop flush config pkey envs c).trace.filter (fun it => it.flushed) := by
        apply List.filter_congr
        intro it hit
        simp [l6 it hit]
      rw [List.filter_append, List.length_append, e1, l7,
        filter_length_none _ _ (fun it hit => by simp [d4 it hit])]
    · show (peerRemovalWorker _ _ _ _ _).c.metrics.peerRemovalDone = _
      rw [d2, l4]
    · show (peerRemovalWorker _ _ _ _ _).c.metrics.peers = _
      rw [d2, l5]
    · show (peerRemovalWorker _ _ _ _ _).c.metrics.routes = _
      rw [d2, hroutes]
    · show (peerRemovalWorker _ _ _ _ _).c.peers = _
      rw [d2, l1]
    · show routeCount _ (peerRemovalWorker _ _ _ _ _).c.rib = _
      rw [d2, l2]
  · intro hb hctx hlen
    have hq : ∀ e ∈ envs, e.ctx.expiresAfter = none ∧ e.dying = false :=
      fun e he => ⟨hctx e he, hquiet e he⟩
    have hlen1 : runsNeeded (routeCount pinfo.reference c.rib)
        config.RIBPeerRemovalBatchRoutes ≤ envs.length := by unfold runsNeeded; omega
    obtain ⟨l1, l2, _, l4, _⟩ :=
      perKeyLoop_quiet config hb pkey pinfo _ envs c hp rfl hq hlen1
    have hnone : (perKeyLoop flushPeerContext config pkey envs c).c.peers pkey = none := by
      rw [l2]; simp [removedState]
    have hrest : m ≤ (perKeyLoop flushPeerContext config pkey envs c).rest.length := by
      rw [l4, List.length_drop]; unfold runsNeeded; simp at hlen ⊢; omega
    rw [hunfold flushPeerContext l1]
    exact (peerRemovalWorker_duplicates flushPeerContext config pkey m _ _ hnone).1 hrest

/-- Witness of C2 on the sample component: `sampleKey` (five routes, batches of two) is
received three times. -/
theorem repeated_requests_idempotent_witness :
    sampleComponent.peers sampleKey = some ⟨7⟩
    ∧ (peerRemovalWorker flushPeerContext sampleConfig
        (List.replicate 3 (Select.recv sampleKey) ++ [Select.dying])
        [quietEnv, quietEnv, quietEnv, quietEnv, quietEnv] sampleComponent).returned
        = some none
    ∧ ((peerRemovalWorker flushPeerContext sampleConfig
        (List.replicate 3 (Select.recv sampleKey) ++ [Select.dying])
        [quietEnv, quietEnv, quietEnv, quietEnv, quietEnv] sampleComponent).trace.filter
          (fun it => it.duplicate)).length = 2
    ∧ (peerRemovalWorker flushPeerContext sampleConfig
        (List.replicate 3 (Select.recv sampleKey) ++ [Select.dying])
        [quietEnv, quietEnv, quietEnv, quietEnv, quietEnv] sampleComponent).c.metrics.routes 10
        = 2 :=
  have h := repeated_requests_idempotent sampleConfig sampleKey ⟨7⟩ 3 (by decide)
    [quietEnv, quietEnv, quietEnv, quietEnv, quietEnv] sampleComponent (by decide)
    (by decide)
  have hret := h.2 (by decide) (by decide) (by decide)
  have hres := h.1 flushPeerContext flushPeerContext_contract hret
  ⟨by decide, hret, hres.2.2.1, (congrFun hres.2.2.2.2.2.2.1 10).trans (by decide)⟩

/-! ### C3: Batch bound -/

/-- C3, as stated, fails on a registered peer that owns no route: with batches of two
routes the per-key loop still makes one iteration, hence one exclusive-lock acquisition,
while `ceil(0/2) = 0`. -/
theorem batch_bound_counterexample :
    sampleComponent.peers idleKey = some ⟨9⟩
    ∧ routeCount 9 sampleComponent.rib = 0
    ∧ (perKeyLoop flushPeerContext sampleConfig idleKey [quietEnv, quietEnv]
        sampleComponent).finished = true
    ∧ opCount Op.lock (perKeyLoop flushPeerContext sampleConfig idleKey [quietEnv, quietEnv]
        sampleComponent).trace = 1
    ∧ opCount Op.lock (perKeyLoop flushPeerContext sampleConfig idleKey [quietEnv, quietEnv]
        sampleComponent).trace
      ≠ ceilDiv (routeCount 9 sampleComponent.rib) sampleConfig.RIBPeerRemovalBatchRoutes := by
  decide

/-- C3, amended. Batch bound: for a registered peer with R routes and a batch size B of at
least 1, absent shutdown and deadline expiry, the per-key loop ends after exactly
`max 1 (ceil(R/B))` iterations, each acquiring the exclusive lock once: `ceil(R/B)` when
the peer owns a route, and 1 when it owns none. -/
theorem batch_bound (config : Configuration) (hb : 1 ≤ config.RIBPeerRemovalBatchRoutes)
    (pkey : PeerKey) (pinfo : PeerInfo) (envs : List Env) (c : Component)
    (hp : c.peers pkey = some pinfo)
    (hquiet : ∀ e ∈ envs, e.ctx.expiresAfter = none ∧ e.dying = false)
    (hlen : max 1 (ceilDiv (routeCount pinfo.reference c.rib) config.RIBPeerRemovalBatchRoutes)
      ≤ envs.length) :
    (perKeyLoop flushPeerContext config pkey envs c).finished = true
    ∧ opCount Op.lock (perKeyLoop flushPeerContext config pkey envs c).trace
        = max 1 (ceilDiv (routeCount pinfo.reference c.rib) config.RIBPeerRemovalBatchRoutes)
    ∧ (perKeyLoop flushPeerContext config pkey envs c).trace.length
        = max 1 (ceilDiv (routeCount pinfo.reference c.rib) config.RIBPeerRemovalBatchRoutes)
    ∧ (1 ≤ routeCount pinfo.reference c.rib →
        opCount Op.lock (perKeyLoop flushPeerContext config pkey envs c).trace
          = ceilDiv (routeCount pinfo.reference c.rib) config.RIBPeerRemovalBatchRoutes)
    ∧ (routeCount pinfo.reference c.rib = 0 →
        opCount Op.lock (perKeyLoop flushPeerContext config pkey envs c).trace = 1) := by
  obtain ⟨h1, _, h3, _⟩ := perKeyLoop_quiet config hb pkey pinfo _ envs c hp rfl hquiet hlen
  have hlock := perKeyLoop_lock_count flushPeerContext config pkey envs c
  unfold runsNeeded at h3
  refine ⟨h1, hlock.trans h3, h3, ?_, ?_⟩
  · intro hpos
    have := ceilDiv_pos _ _ hb hpos
    rw [hlock, h3]; omega
  · intro hz
    rw [hlock, h3, hz, ceilDiv_zero]; rfl

/-- Witness of C3 (amended) on the sample component: five routes in batches of two take
three iterations. -/
theorem batch_bound_witness :
    1 ≤ sampleConfig.RIBPeerRemovalBatchRoutes
    ∧ sampleComponent.peers sampleKey = some ⟨7⟩
    ∧ routeCount 7 sampleComponent.rib = 5
    ∧ (perKeyLoop flushPeerContext sampleConfig sampleKey [quietEnv, quietEnv, quietEnv,
        quietEnv] sampleComponent).finished = true
    ∧ opCount Op.lock (perKeyLoop flushPeerContext sampleConfig sampleKey [quietEnv, quietEnv,
        quietEnv, quietEnv] sampleComponent).trace = 3 :=
  have h := batch_bound sampleConfig (by decide) sampleKey ⟨7⟩
    [quietEnv, quietEnv, quietEnv, quietEnv] sampleComponent (by decide) (by decide)
    (by decide)
  ⟨by decide, by decide, by decide, h.1, h.2.1.trans (by decide)⟩

/-! ### C4: Five routes, batches of two -/

/-- C4. Concrete scenario: with batches of two routes and a registered peer owning five
routes (no shutdown, no deadline expiry), the per-key loop makes exactly three
`flushPeerContext` calls, returning (2, false), (2, false), (1, true) in that order; the
registry entry is still there after the first and the second and is gone after the third;
the partial counter goes up twice and the done counter once, at the last iteration. -/
theorem five_routes_batch_two (config : Configuration)
    (hbatch : config.RIBPeerRemovalBatchRoutes = 2)
    (pkey : PeerKey) (pinfo : PeerInfo) (envs : List Env) (c : Component)
    (hp : c.peers pkey = some pinfo)
    (hfive : routeCount pinfo.reference c.rib = 5)
    (hquiet : ∀ e ∈ envs, e.ctx.expiresAfter = none ∧ e.dying = false)
    (hlen : 3 ≤ envs.length) :
    (perKeyLoop flushPeerContext config pkey envs c).finished = true
    ∧ (perKeyLoop flushPeerContext config pkey envs c).trace.map
        (fun it => (it.removed, it.flushed)) = [(2, false), (2, false), (1, true)]
    ∧ opCount Op.flushPeerContext (perKeyLoop flushPeerContext config pkey envs c).trace = 3
    ∧ (perKeyLoop flushPeerContext config pkey envs c).trace.map
        (fun it => it.after.peers pkey) = [some pinfo, some pinfo, none]
    ∧ (perKeyLoop flushPeerContext config pkey envs c).trace.map
        (fun it => it.after.metrics.peerRemovalPartial (exporterStr pkey))
        = [c.metrics.peerRemovalPartial (exporterStr pkey) + 1,
           c.metrics.peerRemovalPartial (exporterStr pkey) + 2,
           c.metrics.peerRemovalPartial (exporterStr pkey) + 2]
    ∧ (perKeyLoop flushPeerContext config pkey envs c).trace.map
        (fun it => it.after.metrics.peerRemovalDone (exporterStr pkey))
        = [c.metrics.peerRemovalDone (exporterStr pkey),
           c.metrics.peerRemovalDone (exporterStr pkey),
           c.metrics.peerRemovalDone (exporterStr pkey) + 1] := by
  rcases envs with _ | ⟨e1, _ | ⟨e2, _ | ⟨e3, rest⟩⟩⟩
  · simp at hlen
  · simp at hlen
  · simp at hlen
  · have q1 := hquiet e1 (by simp)
    have q2 := hquiet e2 (by simp)
    have q3 := hquiet e3 (by simp)
    obtain ⟨a1, m1, f1, _, d1⟩ := removalIteration_quiet_batch config e1 q1.1 q1.2 c pkey
      pinfo hp (by rw [hfive, hbatch]; decide)
    have hp1 : (removalIteration flushPeerContext config e1 c pkey).after.peers pkey
        = some pinfo := by rw [a1]; exact hp
    have hc1 : routeCount pinfo.reference
        (removalIteration flushPeerContext config e1 c pkey).after.rib = 3 := by
      rw [a1]; simp [batchState, removeUpTo_count, hfive, hbatch]
    obtain ⟨a2, m2, f2, _, d2⟩ := removalIteration_quiet_batch config e2 q2.1 q2.2 _ pkey
      pinfo hp1 (by rw [hc1, hbatch]; decide)
    have hp2 : (removalIteration flushPeerContext config e2
        (removalIteration flushPeerContext config e1 c pkey).after pkey).after.peers pkey
        = some pinfo := by rw [a2]; exact hp1
    have hc2 : routeCount pinfo.reference (removalIteration flushPeerContext config e2
        (removalIteration flushPeerContext config e1 c pkey).after pkey).after.rib = 1 := by
      rw [a2]; simp [batchState, removeUpTo_count, hc1, hbatch]
    obtain ⟨a3, m3, f3, _, d3⟩ := removalIteration_quiet_last config e3 q3.1 _ pkey
      pinfo hp2 (by rw [hc2, hbatch]; decide)
    have k1 := removalIteration_flush_count flushPeerContext config e1 c pkey pinfo hp
    have k2 := removalIteration_flush_count flushPeerContext config e2 _ pkey pinfo hp1
    have k3 := removalIteration_flush_count flushPeerContext config e3 _ pkey pinfo hp2
    have hloop : perKeyLoop flushPeerContext config pkey (e1 :: e2 :: e3 :: rest) c
        = { c := (removalIteration flushPeerContext config e3
              (removalIteration flushPeerContext config e2
                (removalIteration flushPeerContext config e1 c pkey).after pkey).after
              pkey).after,
            trace := [removalIteration flushPeerContext config e1 c pkey,
              removalIteration flushPeerContext config e2
                (removalIteration flushPeerContext config e1 c pkey).after pkey,
              removalIteration flushPeerContext config e3
                (removalIteration flushPeerContext config e2
                  (removalIteration flushPeerContext config e1 c pkey).after pkey).after
                pkey],
            rest := rest, finished := true } := by
      simp [perKeyLoop, d1, d2, d3]
    rw [hloop]
    refine ⟨rfl, ?_, ?_, ?_, ?_, ?_⟩
    · simp [m1, m2, m3, f1, f2, f3, hbatch, hc2]
    · simp [opCount, k1, k2, k3]
    · simp [hp1, hp2, a3, removedState]
    · have p1 : (removalIteration flushPeerContext config e1 c pkey).after.metrics.peerRemovalPartial
          (exporterStr pkey) = c.metrics.peerRemovalPartial (exporterStr pkey) + 1 := by
        rw [a1]; simp [batchState]
      have p2 : (removalIteration flushPeerContext config e2
          (removalIteration flushPeerContext config e1 c pkey).after
          pkey).after.metrics.peerRemovalPartial (exporterStr pkey)
          = c.metrics.peerRemovalPartial (exporterStr pkey) + 2 := by
        rw [a2]; simp [batchState, p1]
      simp [p1, p2, a3, removedState]
    · have p1 : (removalIteration flushPeerContext config e1 c pkey).after.metrics.peerRemovalDone
          (exporterStr pkey) = c.metrics.peerRemovalDone (exporterStr pkey) := by
        rw [a1]; simp [batchState]
      have p2 : (removalIteration flushPeerContext config e2
          (removalIteration flushPeerContext config e1 c pkey).after
          pkey).after.metrics.peerRemovalDone (exporterStr pkey)
          = c.metrics.peerRemovalDone (exporterStr pkey) := by
        rw [a2]; simp [batchState, p1]
      simp [p1, p2, a3, removedState]

/-- Witness of C4 on the sample component: `sampleKey` owns five routes and the batch
size is two. -/
theorem five_routes_batch_two_witness :
    sampleConfig.RIBPeerRemovalBatchRoutes = 2
    ∧ sampleComponent.peers sampleKey = some ⟨7⟩
    ∧ routeCount 7 sampleComponent.rib = 5
    ∧ (perKeyLoop flushPeerContext sampleConfig sampleKey [quietEnv, quietEnv, quietEnv]
        sampleComponent).trace.map (fun it => (it.removed, it.flushed))
        = [(2, false), (2, false), (1, true)]
    ∧ (perKeyLoop flushPeerContext sampleConfig sampleKey [quietEnv, quietEnv, quietEnv]
        sampleComponent).trace.map (fun it => it.after.peers sampleKey)
        = [some ⟨7⟩, some ⟨7⟩, none] :=
  have h := five_routes_batch_two sampleConfig (by decide) sampleKey ⟨7⟩
    [quietEnv, quietEnv, quietEnv] sampleComponent (by decide) (by decide) (by decide)
    (by decide)
  ⟨by decide, by decide, by decide, h.2.1, h.2.2.2.1⟩

/-! ### C5: No lost routes -/

/-- C5. No lost routes: for a registered key and a `flushPeerContext` that keeps its
contract, once the per-key loop has ended and no iteration had its `done` forced by
shutdown, the registry has no entry for the key, the RIB holds no route under the peer's
reference, and the routes stored under every other reference are exactly those stored
before the removal started. -/
theorem no_lost_routes (flush : Flush) (hflush : FlushContract flush)
    (config : Configuration) (pkey : PeerKey) (pinfo : PeerInfo) (envs : List Env)
    (c : Component) (hp : c.peers pkey = some pinfo)
    (hfin : (perKeyLoop flush config pkey envs c).finished = true)
    (hclean : ∀ it ∈ (perKeyLoop flush config pkey envs c).trace, it.done = it.flushed) :
    (perKeyLoop flush config pkey envs c).c.peers pkey = none
    ∧ routeCount pinfo.reference (perKeyLoop flush config pkey envs c).c.rib = 0
    ∧ (∀ other, other ≠ pinfo.reference →
        routesOf other (perKeyLoop flush config pkey envs c).c.rib = routesOf other c.rib) := by
  obtain ⟨h1, h2, h3, _⟩ :=
    perKeyLoop_complete flush hflush config pkey pinfo envs c hp hfin hclean
  exact ⟨by rw [h1]; simp, h2, h3⟩

/-- Witness of C5 on the sample component: the three batches that remove `sampleKey`
leave no route under reference 7 and the two routes of reference 8. -/
theorem no_lost_routes_witness :
    sampleComponent.peers sampleKey = some ⟨7⟩
    ∧ (perKeyLoop flushPeerContext sampleConfig sampleKey [quietEnv, quietEnv, quietEnv]
        sampleComponent).finished = true
    ∧ (perKeyLoop flushPeerContext sampleConfig sampleKey [quietEnv, quietEnv, quietEnv]
        sampleComponent).c.peers sampleKey = none
    ∧ routeCount 7 (perKeyLoop flushPeerContext sampleConfig sampleKey
        [quietEnv, quietEnv, quietEnv] sampleComponent).c.rib = 0
    ∧ routesOf 8 (perKeyLoop flushPeerContext sampleConfig sampleKey
        [quietEnv, quietEnv, quietEnv] sampleComponent).c.rib = [⟨8, 1⟩, ⟨8, 2⟩] :=
  have h := no_lost_routes flushPeerContext flushPeerContext_contract sampleConfig sampleKey
    ⟨7⟩ [quietEnv, quietEnv, quietEnv] sampleComponent (by decide) (by decide) (by decide)
  ⟨by decide, by decide, h.1, h.2.1, (h.2.2 8 (by decide)).trans (by decide)⟩

/-! ### C6: Shutdown during the sleep -/

/-- C6. Shutdown during the inter-batch sleep: when the batch of an iteration returned
`done = false` and the sleep `select` observes `Dying`, `done` is forced to true and the
per-key loop ends with that iteration (one `flushPeerContext` call and one `Lock` in all,
the remaining inputs untouched); the registry entry of the key is still there, the RIB is
the one the batch left, the done counter and the active-peer gauge are unchanged, the
worker then returns nil, and it never returns a non-nil error. -/
theorem shutdown_during_sleep (flush : Flush) (config : Configuration) (env : Env)
    (rest : List Env) (c : Component) (pkey : PeerKey) (pinfo : PeerInfo)
    (h : c.peers pkey = some pinfo)
    (hrun : (flush env.ctx c.rib pinfo.reference config.RIBPeerRemovalBatchRoutes).done
      = false)
    (hdying : env.dying = true) :
    (removalIteration flush config env c pkey).flushed = false
    ∧ (removalIteration flush config env c pkey).done = true
    ∧ (perKeyLoop flush config pkey (env :: rest) c).finished = true
    ∧ (perKeyLoop flush config pkey (env :: rest) c).trace
        = [removalIteration flush config env c pkey]
    ∧ (perKeyLoop flush config pkey (env :: rest) c).rest = rest
    ∧ opCount Op.flushPeerContext (perKeyLoop flush config pkey (env :: rest) c).trace = 1
    ∧ opCount Op.lock (perKeyLoop flush config pkey (env :: rest) c).trace = 1
    ∧ (perKeyLoop flush config pkey (env :: rest) c).c.peers = c.peers
    ∧ (perKeyLoop flush config pkey (env :: rest) c).c.peers pkey = some pinfo
    ∧ (perKeyLoop flush config pkey (env :: rest) c).c.rib
        = (flush env.ctx c.rib pinfo.reference config.RIBPeerRemovalBatchRoutes).rib
    ∧ (perKeyLoop flush config pkey (env :: rest) c).c.metrics.peerRemovalDone
        = c.metrics.peerRemovalDone
    ∧ (perKeyLoop flush config pkey (env :: rest) c).c.metrics.peers = c.metrics.peers
    ∧ (peerRemovalWorker flush config [Select.recv pkey, Select.dying] (env :: rest)
        c).returned = some none
    ∧ (∀ sels envs c0 err,
        (peerRemovalWorker flush config sels envs c0).returned ≠ some (some err)) := by
  have hit : (removalIteration flush config env c pkey).done = true := by
    simp [removalIteration, removalRun, statsRun, h, hrun, hdying]
  have hloop : perKeyLoop flush config pkey (env :: rest) c
      = { c := (removalIteration flush config env c pkey).after,
          trace := [removalIteration flush config env c pkey],
          rest := rest, finished := true } := by
    simp [perKeyLoop, hit]
  have hworker : (peerRemovalWorker flush config [Select.recv pkey, Select.dying]
      (env :: rest) c).returned = some none := by
    simp [peerRemovalWorker, hloop]
  rw [hloop]
  refine ⟨?_, hit, rfl, rfl, rfl, ?_, ?_, ?_, ?_, ?_, ?_, ?_, hworker, ?_⟩
  · simp [removalIteration, removalRun, h, hrun]
  · simp [opCount, removalIteration, removalRun, statsRun, h, hrun]
  · simp [opCount, removalIteration_lock_count]
  · simp [removalIteration, removalRun, statsRun, h, hrun]
  · simp [removalIteration, removalRun, statsRun, h, hrun]
  · simp [removalIteration, removalRun, statsRun, h, hrun]
  · simp [removalIteration, removalRun, statsRun, h, hrun]
  · simp [removalIteration, removalRun, statsRun, h, hrun]
  · intro sels envs c0 err herr
    rcases peerRemovalWorker_returned flush config sels envs c0 with hr | hr <;>
      simp [hr] at herr

/-- Witness of C6 on the sample component: the first batch for `sampleKey` leaves three
of its five routes, and shutdown is observed during the sleep. -/
theorem shutdown_during_sleep_witness :
    sampleComponent.peers sampleKey = some ⟨7⟩
    ∧ (flushPeerContext dyingEnv.ctx sampleComponent.rib 7
        sampleConfig.RIBPeerRemovalBatchRoutes).done = false
    ∧ dyingEnv.dying = true
    ∧ (perKeyLoop flushPeerContext sampleConfig sampleKey [dyingEnv, quietEnv]
        sampleComponent).finished = true
    ∧ (perKeyLoop flushPeerContext sampleConfig sampleKey [dyingEnv, quietEnv]
        sampleComponent).rest = [quietEnv]
    ∧ (perKeyLoop flushPeerContext sampleConfig sampleKey [dyingEnv, quietEnv]
        sampleComponent).c.peers sampleKey = some ⟨7⟩
    ∧ (perKeyLoop flushPeerContext sampleConfig sampleKey [dyingEnv, quietEnv]
        sampleComponent).c.rib = [⟨8, 1⟩, ⟨7, 3⟩, ⟨8, 2⟩, ⟨7, 4⟩, ⟨7, 5⟩] :=
  have h := shutdown_during_sleep flushPeerContext sampleConfig dyingEnv [quietEnv]
    sampleComponent sampleKey ⟨7⟩ (by decide) (by decide) (by decide)
  ⟨by decide, by decide, by decide, h.2.2.1, h.2.2.2.2.1, h.2.2.2.2.2.2.2.2.1,
    h.2.2.2.2.2.2.2.2.2.1.trans (by decide)⟩

/-! ### C7: Registry frame -/

/-- C7. Delete-on-completion and registry frame: in an iteration that finds an entry for
the key, the registry afterwards is the registry before with the key erased if
`flushPeerContext` returned `done = true`, and is the registry before (the key still mapped
to the same PeerInfo) if it returned `done = false`; the entries of all other keys are
unchanged, and neither an iteration nor the worker as a whole inserts an entry. -/
theorem registry_delete_on_completion (flush : Flush) (config : Configuration) (env : Env)
    (c : Component) (pkey : PeerKey) (pinfo : PeerInfo) (h : c.peers pkey = some pinfo) :
    (removalIteration flush config env c pkey).flushed
        = (flush env.ctx c.rib pinfo.reference config.RIBPeerRemovalBatchRoutes).done
    ∧ ((flush env.ctx c.rib pinfo.reference config.RIBPeerRemovalBatchRoutes).done = true →
        (removalIteration flush config env c pkey).after.peers
          = Function.update c.peers pkey none)
    ∧ ((flush env.ctx c.rib pinfo.reference config.RIBPeerRemovalBatchRoutes).done = false →
        (removalIteration flush config env c pkey).after.peers = c.peers
        ∧ (removalIteration flush config env c pkey).after.peers pkey = some pinfo)
    ∧ (∀ k, k ≠ pkey → (removalIteration flush config env c pkey).after.peers k = c.peers k)
    ∧ (∀ k, c.peers k = none →
        (removalIteration flush config env c pkey).after.peers k = none)
    ∧ (∀ sels envs k, c.peers k = none →
        (peerRemovalWorker flush config sels envs c).c.peers k = none) := by
  refine ⟨?_, ?_, ?_, ?_, ?_, ?_⟩
  · by_cases hd : (flush env.ctx c.rib pinfo.reference config.RIBPeerRemovalBatchRoutes).done
      <;> simp [removalIteration, removalRun, h, hd]
  · intro hd
    simp [removalIteration, removalRun, statsRun, h, hd]
  · intro hd
    simp [removalIteration, removalRun, statsRun, h, hd]
  · intro k hk
    by_cases hd : (flush env.ctx c.rib pinfo.reference config.RIBPeerRemovalBatchRoutes).done
    · simp [removalIteration, removalRun, statsRun, h, hd, Function.update_noteq hk]
    · simp [removalIteration, removalRun, statsRun, h, hd]
  · intro k hk
    exact removalIteration_peers_none flush config env c pkey k hk
  · intro sels envs k hk
    exact peerRemovalWorker_peers_none flush config k sels envs c hk

/-- Witness of C7 on the sample component: the first batch for `sampleKey` is incomplete
and keeps the entry. -/
theorem registry_delete_on_completion_witness :
    sampleComponent.peers sampleKey = some ⟨7⟩
    ∧ (removalIteration flushPeerContext sampleConfig quietEnv sampleComponent
        sampleKey).flushed = false
    ∧ (removalIteration flushPeerContext sampleConfig quietEnv sampleComponent
        sampleKey).after.peers = sampleComponent.peers :=
  have h := registry_delete_on_completion flushPeerContext sampleConfig quietEnv
    sampleComponent sampleKey ⟨7⟩ (by decide)
  ⟨by decide, h.1.trans (by decide), (h.2.2.1 (by decide)).1⟩

/-! ### C8: Lock discipline -/

/-- C8. Lock discipline of one iteration: every iteration (duplicate, incomplete,
complete, or cut short by shutdown) performs exactly the lock operations Lock,
DowngradeLock, RUnlock, once each and in that order; run from Unlocked, the lock accepts
the whole iteration and ends Unlocked; the registry lookup, the `flushPeerContext` call
and the registry delete happen while it is Exclusive, and the routes, peers, partial and
done metric updates and the sleep while it is Shared. -/
theorem lock_discipline (flush : Flush) (config : Configuration) (env : Env)
    (c : Component) (pkey : PeerKey) :
    (removalIteration flush config env c pkey).ops.filter Op.isLockOp
        = [Op.lock, Op.downgradeLock, Op.rUnlock]
    ∧ ∃ l, lockRun LockState.Unlocked (removalIteration flush config env c pkey).ops
          = some (l, LockState.Unlocked)
        ∧ ∀ p ∈ l, (p.1.isMutation = true → p.2 = LockState.Exclusive)
            ∧ (p.1.isStats = true → p.2 = LockState.Shared) := by
  rcases removalIteration_ops flush config env c pkey with h | h | h <;> rw [h] <;>
    exact ⟨by decide, _, rfl, by decide⟩

/-! ### C9: Partial-run accounting -/

/-- C9. Partial-run accounting: in every iteration the partial counter of the exporter
goes up by exactly 1 if and only if the batch returned `done = false`, whatever the
value of `removed` (0 included), and then the done counter and the active-peer gauge are
unchanged; when the batch returned `done = true` the partial counter is unchanged and
the done counter goes up by 1 and the active-peer gauge down by 1 exactly when
`duplicate = false`. -/
theorem partial_run_accounting (flush : Flush) (config : Configuration) (env : Env)
    (c : Component) (pkey : PeerKey) :
    ((removalIteration flush config env c pkey).flushed = false →
      (removalIteration flush config env c pkey).after.metrics.peerRemovalPartial
          = Function.update c.metrics.peerRemovalPartial (exporterStr pkey)
              (c.metrics.peerRemovalPartial (exporterStr pkey) + 1)
      ∧ (removalIteration flush config env c pkey).after.metrics.peerRemovalDone
          = c.metrics.peerRemovalDone
      ∧ (removalIteration flush config env c pkey).after.metrics.peers = c.metrics.peers)
    ∧ ((removalIteration flush config env c pkey).flushed = true →
      (removalIteration flush config env c pkey).after.metrics.peerRemovalPartial
          = c.metrics.peerRemovalPartial
      ∧ ((removalIteration flush config env c pkey).duplicate = false →
          (removalIteration flush config env c pkey).after.metrics.peerRemovalDone
              = Function.update c.metrics.peerRemovalDone (exporterStr pkey)
                  (c.metrics.peerRemovalDone (exporterStr pkey) + 1)
          ∧ (removalIteration flush config env c pkey).after.metrics.peers
              = Function.update c.metrics.peers (exporterStr pkey)
                  (c.metrics.peers (exporterStr pkey) - 1))
      ∧ ((removalIteration flush config env c pkey).duplicate = true →
          (removalIteration flush config env c pkey).after.metrics.peerRemovalDone
              = c.metrics.peerRemovalDone
          ∧ (removalIteration flush config env c pkey).after.metrics.peers = c.metrics.peers))
    ∧ (∀ (label : Label) (removed : Nat) (duplicate dying : Bool),
        (statsRun c label removed false duplicate dying).c.metrics.peerRemovalPartial
            = Function.update c.metrics.peerRemovalPartial label
                (c.metrics.peerRemovalPartial label + 1)
        ∧ (statsRun c label removed false duplicate dying).c.metrics.peerRemovalDone
            = c.metrics.peerRemovalDone
        ∧ (statsRun c label removed false duplicate dying).c.metrics.peers
            = c.metrics.peers) := by
  refine ⟨?_, ?_, ?_⟩
  · unfold removalIteration removalRun statsRun
    cases hp : c.peers pkey with
    | none => simp
    | some pinfo =>
      by_cases hd :
          (flush env.ctx c.rib pinfo.reference config.RIBPeerRemovalBatchRoutes).done
        <;> simp [hd]
  · unfold removalIteration removalRun statsRun
    cases hp : c.peers pkey with
    | none => simp
    | some pinfo =>
      by_cases hd :
          (flush env.ctx c.rib pinfo.reference config.RIBPeerRemovalBatchRoutes).done
        <;> simp [hd]
  · intro label removed duplicate dying
    simp [statsRun]

/-- Witness of C9 on the sample component: a batch cut by the deadline before any route
is deleted removes nothing and still counts as an incomplete run. -/
theorem partial_run_accounting_witness :
    (removalIteration flushPeerContext sampleConfig stalledEnv sampleComponent
        sampleKey).removed = 0
    ∧ (removalIteration flushPeerContext sampleConfig stalledEnv sampleComponent
        sampleKey).flushed = false
    ∧ (removalIteration flushPeerContext sampleConfig stalledEnv sampleComponent
        sampleKey).after.metrics.peerRemovalPartial 10 = 1
    ∧ (removalIteration flushPeerContext sampleConfig stalledEnv sampleComponent
        sampleKey).after.metrics.peerRemovalDone 10 = 0 :=
  have h := (partial_run_accounting flushPeerContext sampleConfig stalledEnv sampleComponent
    sampleKey).1 (by decide)
  ⟨by decide, by decide, (congrFun h.1 10).trans (by decide),
    (congrFun h.2.1 10).trans (by decide)⟩


/-! ### C10: Gauge conservation -/

/-- C10. Gauge conservation: whatever the batches return and wherever the per-key loop
stops (completion, shutdown, or any number of iterations made so far), the routes gauge
of the key's exporter has gone down by the sum of the removed counts of the batches and
no other label has changed; when `flushPeerContext` keeps its contract, that sum is the
number of routes deleted from the RIB under the peer's reference. -/
theorem gauge_conservation (flush : Flush) (config : Configuration) (pkey : PeerKey)
    (envs : List Env) (c : Component) :
    (perKeyLoop flush config pkey envs c).c.metrics.routes (exporterStr pkey)
        = c.metrics.routes (exporterStr pkey)
          - (removedTotal (perKeyLoop flush config pkey envs c).trace : Int)
    ∧ (∀ label, label ≠ exporterStr pkey →
        (perKeyLoop flush config pkey envs c).c.metrics.routes label = c.metrics.routes label)
    ∧ (∀ pinfo, c.peers pkey = some pinfo → FlushContract flush →
        removedTotal (perKeyLoop flush config pkey envs c).trace
          + routeCount pinfo.reference (perKeyLoop flush config pkey envs c).c.rib
          = routeCount pinfo.reference c.rib)
    ∧ (c.peers pkey = none →
        removedTotal (perKeyLoop flush config pkey envs c).trace = 0
        ∧ (perKeyLoop flush config pkey envs c).c.rib = c.rib) := by
  refine ⟨?_, ?_, ?_, ?_⟩
  · rw [perKeyLoop_routes]; simp
  · intro label hl
    rw [perKeyLoop_routes]; simp [Function.update_noteq hl]
  · intro pinfo hp hflush
    exact perKeyLoop_removed_count flush hflush config pkey pinfo envs c hp
  · intro hp
    cases envs with
    | nil => simp [perKeyLoop, removedTotal]
    | cons env rest =>
      simp [perKeyLoop, removedTotal, removalIteration, removalRun, statsRun, hp]

/-- Witness of C10 on the sample component: after two of the three batches of `sampleKey`
the routes gauge of exporter 10 is down by the four routes deleted so far. -/
theorem gauge_conservation_witness :
    (perKeyLoop flushPeerContext sampleConfig sampleKey [quietEnv, quietEnv]
        sampleComponent).finished = false
    ∧ (perKeyLoop flushPeerContext sampleConfig sampleKey [quietEnv, quietEnv]
        sampleComponent).c.metrics.routes 10 = 7 - 4
    ∧ 4 + routeCount 7 (perKeyLoop flushPeerContext sampleConfig sampleKey
        [quietEnv, quietEnv] sampleComponent).c.rib = 5 :=
  have h := gauge_conservation flushPeerContext sampleConfig sampleKey [quietEnv, quietEnv]
    sampleComponent
  ⟨by decide, h.1.trans (by decide),
    (by decide : 4 = removedTotal (perKeyLoop flushPeerContext sampleConfig sampleKey
      [quietEnv, quietEnv] sampleComponent).trace) ▸
      (h.2.2.1 ⟨7⟩ (by decide) flushPeerContext_contract).trans (by decide)⟩

end Bmp
